import Mathlib

/-!
Verification of the decision-maker resolution engine
(`scrapers/find_decision_makers.py`, `scrapers/linkup_client.py`,
`scrapers/find_domain.py`).

The Python source is shallowly embedded: every function below mirrors one
Python function of the repository, string by string.  Python's `dict`
(insertion-ordered) is modelled as an association list, Python string
methods (`strip`, `lower`, `split`, `replace`, `in`) are implemented over
`List Char`, and the `re` patterns used by the source are implemented as
explicit matching functions with the leftmost-match / greedy / lazy
semantics of the originals (ASCII inputs; Python's `str.lower` and the
character classes `\s`, `\w` coincide with the ASCII definitions used
here on the data the program handles).
-/

namespace DriverJobPost

/-! ### Python string primitives -/

/-- Python's `\s` / `str.isspace` character class (ASCII part). -/
def isSpace (c : Char) : Bool :=
  c = ' ' || c = '\t' || c = '\n' || c = '\x0d' || c = '\x0b' || c = '\x0c'

/-- Python's `\w` character class (ASCII part): letters, digits, underscore. -/
def isWordChar (c : Char) : Bool :=
  c.isAlphanum || c = '_'

/-- Python `str.lower` (ASCII). -/
def pyLower (s : String) : String :=
  String.mk (s.toList.map Char.toLower)

/-- Python `str.strip()` with no argument: remove leading/trailing whitespace. -/
def stripChars (cs : List Char) : List Char :=
  ((cs.dropWhile isSpace).reverse.dropWhile isSpace).reverse

/-- Python `str.strip()` on `String`. -/
def pyStrip (s : String) : String :=
  String.mk (stripChars s.toList)

/-- Python `str.split()` with no argument: split on whitespace runs,
no empty pieces. -/
def pySplit (s : String) : List String :=
  ((s.toList.splitOnP isSpace).map String.mk).filter (fun w => w ≠ "")

/-- Substring test on character lists (`needle` occurs contiguously). -/
def listInfix (pat : List Char) : List Char → Bool
  | [] => pat.isEmpty
  | c :: rest => pat.isPrefixOf (c :: rest) || listInfix pat rest

/-- Python's substring test `needle in hay`. -/
def strContains (hay needle : String) : Bool :=
  listInfix needle.toList hay.toList

/-- Python `str.startswith`. -/
def pyStartsWith (s pre : String) : Bool :=
  pre.toList.isPrefixOf s.toList

/-- Python `str.rstrip("/")`: drop trailing slashes. -/
def rstripSlash (s : String) : String :=
  String.mk ((s.toList.reverse.dropWhile (fun c => c = '/')).reverse)

/-- Python `str.strip("/")`: drop leading and trailing slashes. -/
def stripSlash (s : String) : String :=
  String.mk (((s.toList.dropWhile (fun c => c = '/')).reverse.dropWhile
    (fun c => c = '/')).reverse)

/-- One step of Python `str.replace(pat, rep)`: left-to-right,
non-overlapping replacement of every occurrence of `pat`. -/
def pyReplaceGo (pat rep : List Char) : List Char → List Char
  | [] => []
  | c :: rest =>
    if pat.isPrefixOf (c :: rest) ∧ pat ≠ [] then
      rep ++ pyReplaceGo pat rep (rest.drop (pat.length - 1))
    else
      c :: pyReplaceGo pat rep rest
termination_by cs => cs.length
decreasing_by
  · simp only [List.length_drop, List.length_cons]; omega
  · simp only [List.length_cons]; omega

/-- Python `str.replace(pat, rep)` (identity when `pat` is empty; the
source only calls it with patterns of length > 1). -/
def pyReplace (s pat rep : String) : String :=
  String.mk (pyReplaceGo pat.toList rep.toList s.toList)

/-- Python `re.sub(r'\s+', ' ', text)`: collapse each whitespace run to a
single space. -/
def collapseWs : List Char → List Char
  | [] => []
  | c :: rest =>
    if isSpace c then ' ' :: collapseWs (rest.dropWhile isSpace)
    else c :: collapseWs rest
termination_by cs => cs.length
decreasing_by
  · have hsub : List.Sublist (rest.dropWhile isSpace) rest :=
      List.dropWhile_sublist isSpace
    have := hsub.length_le
    simp only [List.length_cons]; omega
  · simp only [List.length_cons]; omega

/-- Python `re.sub(r'[^\w\s]', '', text)`: keep word chars and whitespace. -/
def stripPunct (cs : List Char) : List Char :=
  cs.filter (fun c => isWordChar c || isSpace c)

/-! ### Data model (`find_decision_makers.py`, dataclass `DecisionMaker`) -/

/-- The `DecisionMaker` dataclass.  `category`, `source` and `confidence`
are the exact Python strings. -/
structure DecisionMaker where
  name : String
  title : String
  category : String
  source : String
  mentioned_in_job_posting : Bool
  linkedin : String
  confidence : String
deriving DecidableEq, Repr

/-- `REJECT_NAMES`: names that indicate a failed extraction. -/
def REJECT_NAMES : List String :=
  ["unknown", "n/a", "not specified", "not found", "not available",
   "none", "no name", "no contact", "the company", "the owner"]

/-- `MAX_CONTACTS_PER_COMPANY`. -/
def MAX_CONTACTS_PER_COMPANY : Nat := 5

/-- `CATEGORIES`: ordered category/keyword table. -/
def CATEGORIES : List (String × List String) :=
  [("Hiring",
    ["hiring", "recruiter", "recruiting", "talent", "human resources",
     "hr "]),
   ("Owners / Boss",
    ["ceo", "chief", "owner", "founder", "president", "partner",
     "vp", "vice president", "director", "head of"]),
   ("Operations & Fleet Management",
    ["operations", "fleet", "transportation", "logistics", "dispatch",
     "safety", "manager"])]

/-- `_categorize_title`: first category whose keyword list has a substring
hit in the lowercased title, else `none`. -/
def categorizeTitle (title : String) : Option String :=
  let lower := pyLower title
  (CATEGORIES.find? (fun c => c.2.any (fun kw => strContains lower kw))).map (·.1)

/-- `SOURCE_PRIORITY.get(source, 99)` (lower = better). -/
def sourcePriority (s : String) : Nat :=
  if s = "Job Posting" then 0
  else if s = "Company Website" then 1
  else if s = "LinkedIn" then 2
  else if s = "Web Search" then 3
  else 99

/-- `_compute_confidence`. -/
def computeConfidence (source linkedin : String) (mentionedInPosting : Bool)
    (name : String) : String :=
  if linkedin ≠ "" ∨ mentionedInPosting then "High"
  else if source = "Company Website" ∨ source = "Job Posting" then "Medium"
  else if (source = "LinkedIn" ∨ source = "Web Search") ∧
      2 ≤ (pySplit name).length then "Medium"
  else "Low"

/-- `_is_valid_name`. -/
def isValidName (name : String) : Bool :=
  let stripped := pyStrip name
  if stripped = "" then false
  else if REJECT_NAMES.contains (pyLower stripped) then false
  else if (pySplit stripped).length < 2 then false
  else true

/-! ### `find_domain._clean_company_name`

The Python regex
`\s*,?\s*\b(LLC|L\.?L\.?C\.?|Inc\.?|Corp\.?|Corporation|Ltd\.?|Incorporated|Company|Co\.?|LP|LLP)\b\.?\s*$`
(ignore-case) is applied with `re.sub(..., "")` and then `.strip()`.
Anchored at `$`, at most one match exists; it consists of an optional
run of whitespace, an optional comma, more optional whitespace, one of
the legal-suffix tokens (with a word boundary before it), at most one
trailing dot, and trailing whitespace.  We match it from the right. -/

/-- The character sequences the suffix alternation can match, lowercase
(variants with internal optional dots spelled out), longest first. -/
def SUFFIX_TOKENS : List (List Char) :=
  [("incorporated").toList, ("corporation").toList, ("company").toList,
   ("l.l.c").toList, ("l.lc").toList, ("ll.c").toList,
   ("corp").toList, ("llc").toList, ("ltd").toList, ("inc").toList,
   ("llp").toList, ("co").toList, ("lp").toList]

/-- Drop one leading comma, if present (the `,?` of the suffix regex,
seen from the right). -/
def dropComma : List Char → List Char
  | ',' :: t => t
  | cs => cs

/-- Try to remove one legal suffix at the head of the REVERSED char list
(whitespace and the optional final dot already removed); returns the
remaining reversed chars of the match (everything left of the suffix
and of its preceding `\s*,?\s*`). -/
def trySuffix (r2 : List Char) : Option (List Char) :=
  SUFFIX_TOKENS.findSome? (fun tok =>
    let tokRev := tok.reverse
    if (r2.take tokRev.length).map Char.toLower = tokRev then
      let rest := r2.drop tokRev.length
      -- word boundary before the token (in original order)
      match rest.head? with
      | some c => if isWordChar c then none else
          some ((dropComma (rest.dropWhile isSpace)).dropWhile isSpace)
      | none => some []
    else none)

/-- `_clean_company_name`: strip one trailing legal suffix, then strip. -/
def cleanCompanyName (name : String) : String :=
  let rev := name.toList.reverse
  let r1 := rev.dropWhile isSpace
  let r2 := match r1 with
    | '.' :: t => t
    | _ => r1
  match trySuffix r2 with
  | some rest => String.mk (stripChars rest.reverse)
  | none => pyStrip name

/-! ### `_title_company_matches`

The Python pattern `\bat\s+(.+?)(?:\s*$|\s*,)` (ignore-case) is searched
left to right.  At a word-boundary `at` followed by whitespace, the lazy
group captures the shortest non-empty text whose remainder is all
whitespace or whitespace followed by a comma.  If the whitespace run
after `at` reaches the end of the string, backtracking of `\s+` lets the
group capture a single whitespace character (which strips to empty) when
the run has length ≥ 2, and the match fails otherwise. -/

/-- Does the remainder after the lazy capture satisfy `(?:\s*$|\s*,)`? -/
def atTailOk (cs : List Char) : Bool :=
  match cs.dropWhile isSpace with
  | [] => true
  | c :: _ => c = ','

/-- Lazy capture `(.+?)` before `(?:\s*$|\s*,)`: grow the (non-empty)
capture one char at a time, stopping at the first valid remainder. -/
def lazyCapAux (acc : List Char) : List Char → List Char
  | [] => acc.reverse
  | c :: rest =>
    if atTailOk rest then (c :: acc).reverse
    else lazyCapAux (c :: acc) rest

/-- Scan for the leftmost full match of `\bat\s+(.+?)(?:\s*$|\s*,)`;
`prevW` tells whether the previous char was a word char (for `\b`).
Returns the captured group. -/
def findAtGo (prevW : Bool) : List Char → Option (List Char)
  | [] => none
  | c :: rest =>
    if ¬ prevW ∧ (c = 'a' ∨ c = 'A') then
      match rest with
      | t :: r2 =>
        if (t = 't' ∨ t = 'T') ∧ (r2.head?.elim false isSpace : Bool) = true then
          let body := r2.dropWhile isSpace
          if body ≠ [] then some (lazyCapAux [] body)
          else if 2 ≤ (r2.takeWhile isSpace).length then some [' ']
          else findAtGo (isWordChar c) rest
        else findAtGo (isWordChar c) rest
      | [] => none
    else findAtGo (isWordChar c) rest

/-- The "at Company" clause of a title, if any (`re.search` result). -/
def findAtClause (title : String) : Option String :=
  (findAtGo false title.toList).map String.mk

/-- Stop-words removed before comparing company names in
`_title_company_matches`. -/
def TITLE_SKIP_WORDS : List String :=
  ["the", "and", "of", "a", "an", "for", "in", "at", "by", "to", "company"]

/-- `set(clean_target.split()) - skip` for the target company:
distinct meaningful words of the cleaned, lowercased company name. -/
def targetWords (companyName : String) : List String :=
  ((pySplit (pyLower (cleanCompanyName companyName))).filter
    (fun w => ¬ TITLE_SKIP_WORDS.contains w)).dedup

/-- `set(clean_title.split()) - skip` for the company extracted from the
title (the captured group, stripped and lowercased, then cleaned). -/
def titleClauseWords (grp : String) : List String :=
  ((pySplit (pyLower (cleanCompanyName (pyLower (pyStrip grp))))).filter
    (fun w => ¬ TITLE_SKIP_WORDS.contains w)).dedup

/-- `target_words & title_words`. -/
def guardCommonWords (companyName grp : String) : List String :=
  (targetWords companyName).filter (fun w => (titleClauseWords grp).contains w)

/-- `_title_company_matches`.  `match_ratio < 0.75` over the small integer
set sizes is exactly `4 * |common| < 3 * |target|` (0.75 is an exact
binary float and the quotient is far from it whenever it differs). -/
def titleCompanyMatches (title companyName : String) : Bool :=
  match findAtClause title with
  | none => true
  | some grp =>
    if targetWords companyName = [] then true
    else decide (3 * (targetWords companyName).length ≤
      4 * (guardCommonWords companyName grp).length)

/-! ### The dedup pool and `_add_person`

Python's insertion-ordered `dict[str, DecisionMaker]` is an association
list: updates rewrite the value in place, new keys append at the end. -/

/-- The `all_people` dict. -/
abbrev Pool := List (String × DecisionMaker)

/-- `key in all_people` / `all_people[key]` (first matching entry). -/
def poolFind? : Pool → String → Option DecisionMaker
  | [], _ => none
  | kv :: t, key => if kv.1 = key then some kv.2 else poolFind? t key

/-- Overwrite the value stored at `key` (in place, keeping order). -/
def poolUpdate : Pool → String → DecisionMaker → Pool
  | [], _, _ => []
  | kv :: t, key, v =>
    if kv.1 = key then (key, v) :: poolUpdate t key v
    else kv :: poolUpdate t key v

/-- `all_people[key] = v` for a fresh key: appends. -/
def poolInsert (pool : Pool) (key : String) (v : DecisionMaker) : Pool :=
  pool ++ [(key, v)]

/-- The merge branch of `_add_person` (lines 247-258): upgrade
source/title on strictly better priority, accumulate evidence, upgrade
confidence on strictly higher rank. -/
def confRank (c : String) : Nat :=
  if c = "High" then 2 else if c = "Medium" then 1 else 0

/-- Merge new evidence into an existing record (`_add_person`, merge arm). -/
def mergeRecord (existing : DecisionMaker) (title source : String)
    (mentionedInPosting : Bool) (linkedin : String) (confidence : String) :
    DecisionMaker :=
  let e1 := if sourcePriority source < sourcePriority existing.source then
      { existing with source := source, title := title } else existing
  let e2 := if mentionedInPosting then
      { e1 with mentioned_in_job_posting := true } else e1
  let e3 := if linkedin ≠ "" ∧ e2.linkedin = "" then
      { e2 with linkedin := linkedin } else e2
  if confRank e3.confidence < confRank confidence then
    { e3 with confidence := confidence } else e3

/-- `_add_person`. -/
def addPerson (pool : Pool) (name title source companyName : String)
    (mentionedInPosting : Bool) (linkedin : String) : Pool :=
  let name := pyStrip name
  let title := pyStrip title
  if ¬ isValidName name then pool
  else if companyName ≠ "" ∧ ¬ titleCompanyMatches title companyName then pool
  else
    let category? :=
      if source = "Job Posting" ∧ mentionedInPosting then
        some ((categorizeTitle title).getD "Hiring")
      else categorizeTitle title
    match category? with
    | none => pool
    | some category =>
      let confidence := computeConfidence source linkedin mentionedInPosting name
      let key := pyLower name
      match poolFind? pool key with
      | some existing =>
          poolUpdate pool key
            (mergeRecord existing title source mentionedInPosting linkedin confidence)
      | none =>
          poolInsert pool key
            { name := name, title := title, category := category,
              source := source, mentioned_in_job_posting := mentionedInPosting,
              linkedin := linkedin, confidence := confidence }

/-- `_count_valid`: number of High-confidence records. -/
def countValid (pool : Pool) : Nat :=
  (pool.map (·.2)).countP (fun p => p.confidence = "High")

/-! ### `linkup_client._post_with_retry`

The loop `for attempt in range(MAX_RETRIES_PER_REQUEST + 1)` posts once
per iteration.  We model the sequence of transport outcomes as a
function from the attempt index to an outcome, thread the process-wide
`_consecutive_429s` counter explicitly, and record every 429 cooldown
that is slept.  `time.sleep` amounts and the `2^attempt + jitter`
backoff have no further observable effect and are not recorded for
5xx/transport retries. -/

/-- `MAX_RETRIES_PER_REQUEST` (`config.py`). -/
def MAX_RETRIES_PER_REQUEST : Nat := 3

/-- `_MAX_CONSECUTIVE_429`. -/
def MAX_CONSECUTIVE_429 : Nat := 5

/-- Outcome of one `session.post`: an HTTP status (with the parsed
`Retry-After` header, when present) or a `Timeout`/`ConnectionError`. -/
inductive PostOutcome where
  | status (code : Nat) (retryAfter : Option Nat)
  | netError
deriving DecidableEq, Repr

/-- How `_post_with_retry` can terminate abnormally. -/
inductive RetryError where
  /-- the distinguished `RateLimitExhausted` exception -/
  | rateLimitExhausted
  /-- re-raised `requests.Timeout` / `ConnectionError` -/
  | transportError
  /-- `resp.raise_for_status()` on the final 4xx/5xx response -/
  | httpError
deriving DecidableEq, Repr

/-- The retry loop.  `remaining` is the number of loop iterations left
(initially `MAX_RETRIES_PER_REQUEST + 1`), `attempt` the loop index,
`c429` the process-wide consecutive-429 counter, `waits` the list of
429 cooldowns slept so far, `lastExc` whether a transport error was
caught in an earlier iteration.  Returns the result, the 429 cooldowns
slept, and the final counter value. -/
def postRetryGo (script : Nat → PostOutcome) :
    Nat → Nat → Nat → List Nat → Bool →
    Except RetryError Nat × List Nat × Nat
  | 0, _, c429, waits, lastExc =>
      -- loop exhausted: `raise last_exc` or `resp.raise_for_status()`
      (if lastExc then .error .transportError else .error .httpError, waits, c429)
  | remaining + 1, attempt, c429, waits, lastExc =>
    match script attempt with
    | .netError =>
        if attempt < MAX_RETRIES_PER_REQUEST then
          postRetryGo script remaining (attempt + 1) c429 waits true
        else (.error .transportError, waits, c429)
    | .status code retryAfter =>
        if code = 429 then
          let c := c429 + 1
          if MAX_CONSECUTIVE_429 ≤ c then (.error .rateLimitExhausted, waits, c)
          else
            postRetryGo script remaining (attempt + 1) c
              (waits ++ [min (retryAfter.getD 10) 60]) lastExc
        else if 500 ≤ code then
          postRetryGo script remaining (attempt + 1) c429 waits lastExc
        else (.ok code, waits, 0)

/-- `_post_with_retry`, given the initial value of the process-wide
consecutive-429 counter. -/
def postWithRetry (script : Nat → PostOutcome) (c429 : Nat) :
    Except RetryError Nat × List Nat × Nat :=
  postRetryGo script (MAX_RETRIES_PER_REQUEST + 1) 0 c429 [] false

/-! ### LinkedIn result parsing (`_parse_linkedin_result`,
`_company_in_result`) -/

/-- Does `\s*\|?\s*LinkedIn` (ignore-case) match at this position?
(`re.sub(r'\s*\|?\s*LinkedIn.*$', '', s)` removes from the leftmost such
position to the end; stated for single-line fields.) -/
def linkedinTailAt (cs : List Char) : Bool :=
  let a := cs.dropWhile isSpace
  let b := match a with
    | '|' :: t => t.dropWhile isSpace
    | _ => a
  ("linkedin").toList.isPrefixOf (b.map Char.toLower)

/-- Remove the trailing `... | LinkedIn ...` marker. -/
def removeLinkedInTail : List Char → List Char
  | [] => []
  | c :: rest =>
    if linkedinTailAt (c :: rest) then [] else c :: removeLinkedInTail rest

/-- `re.split(r'\s*[\-\|]\s*', s)`: each delimiter is one `-`/`|` with
its surrounding whitespace.  `piece` and `pending` are reversed
accumulators (current piece, trailing whitespace not yet attached). -/
def splitSepGo (piece pending : List Char) : List Char → List (List Char)
  | [] => [(pending ++ piece).reverse]
  | c :: rest =>
    if c = '-' ∨ c = '|' then
      piece.reverse :: splitSepGo [] [] (rest.dropWhile isSpace)
    else if isSpace c then splitSepGo piece (c :: pending) rest
    else splitSepGo (c :: (pending ++ piece)) [] rest
termination_by cs => cs.length
decreasing_by
  · have hsub : List.Sublist (rest.dropWhile isSpace) rest :=
      List.dropWhile_sublist isSpace
    have := hsub.length_le
    simp only [List.length_cons]; omega
  · simp only [List.length_cons]; omega
  · simp only [List.length_cons]; omega

/-- `_parse_linkedin_result`: `'John Doe - CEO - Company | LinkedIn'`
becomes `("John Doe", "CEO")`. -/
def parseLinkedinResult (nameField : String) : String × String :=
  let cleaned := removeLinkedInTail nameField.toList
  let parts := splitSepGo [] [] cleaned
  let name := pyStrip (String.mk (parts.headD []))
  let title := match parts.drop 1 with
    | p2 :: _ => pyStrip (String.mk p2)
    | [] => ""
  (name, title)

/-- `_company_in_result`: check that the company name appears in the
result text once the person's own name parts are blanked out. -/
def companyInResult (companyName resultText personName : String) : Bool :=
  let text := pyLower resultText
  let companyLower := pyStrip (pyLower companyName)
  let text1 := (pySplit (pyLower personName)).foldl
    (fun t part => if 1 < part.length then pyReplace t part " " else t) text
  let text2 := String.mk (collapseWs text1.toList)
  if strContains text2 companyLower then true
  else
    let companyClean := String.mk (stripPunct companyLower.toList)
    let textClean := String.mk (stripPunct text2.toList)
    if strContains textClean companyClean then true
    else
      let cleanName := pyLower (cleanCompanyName companyName)
      let skip : List String :=
        ["the", "and", "of", "a", "an", "for", "in", "at", "by", "to"]
      let companyWords := (pySplit cleanName).filter
        (fun w => 2 < w.length ∧ ¬ skip.contains w)
      if companyWords ≠ [] then
        let found := companyWords.countP (fun w => strContains textClean w)
        -- `found >= max(1, len(company_words) * 0.5)` over exact halves
        decide (1 ≤ found ∧ companyWords.length ≤ 2 * found)
      else false

/-! ### Team-page markdown extraction (`_extract_people_from_markdown`)

`PERSON_LINE_RE = ([A-Z][a-z]+(?:\s+[A-Z][a-z]+){1,3})\s*[,\-\|:]\s*(.+?)(?:\n|$)`
`BOLD_PERSON_RE = \*\*([A-Z][a-z]+(?:\s+[A-Z][a-z]+){1,3})\*\*\s*[,\-\|:—]\s*(.+?)(?:\n|$)`
implemented with the greedy word repetition (3, then 2, then 1 on
backtracking) and the lazy title capture running to the end of the
line. -/

/-- `[A-Z][a-z]+`: one capitalized word, greedy. -/
def matchCapWord : List Char → Option (List Char × List Char)
  | [] => none
  | c :: rest =>
    if c.isUpper then
      let lows := rest.takeWhile (fun d => d.isLower)
      if lows ≠ [] then some (c :: lows, rest.drop lows.length) else none
    else none

/-- `\s+[A-Z][a-z]+`: one further name word with its leading whitespace. -/
def parseRep (cs : List Char) : Option (List Char × List Char) :=
  let ws := cs.takeWhile isSpace
  if ws = [] then none
  else match matchCapWord (cs.dropWhile isSpace) with
    | some (w, rest) => some (ws ++ w, rest)
    | none => none

/-- The `{1,3}` repetition: candidate (name, rest) pairs in the regex
backtracking order (longest first). -/
def nameCands (w1 r0 : List Char) : List (List Char × List Char) :=
  match parseRep r0 with
  | none => []
  | some (e1, r1) =>
    match parseRep r1 with
    | none => [(w1 ++ e1, r1)]
    | some (e2, r2) =>
      match parseRep r2 with
      | none => [(w1 ++ e1 ++ e2, r2), (w1 ++ e1, r1)]
      | some (e3, r3) =>
          [(w1 ++ e1 ++ e2 ++ e3, r3), (w1 ++ e1 ++ e2, r2), (w1 ++ e1, r1)]

/-- `\s*[,\-\|:]\s*` (plain line separator). -/
def parseSepPlain (cs : List Char) : Option (List Char) :=
  match cs.dropWhile isSpace with
  | c :: t =>
    if c = ',' ∨ c = '-' ∨ c = '|' ∨ c = ':' then some (t.dropWhile isSpace)
    else none
  | [] => none

/-- `\s*[,\-\|:—]\s*` (bold line separator, with the em dash). -/
def parseSepBold (cs : List Char) : Option (List Char) :=
  match cs.dropWhile isSpace with
  | c :: t =>
    if c = ',' ∨ c = '-' ∨ c = '|' ∨ c = ':' ∨ c = '—' then
      some (t.dropWhile isSpace)
    else none
  | [] => none

/-- `(.+?)(?:\n|$)`: the rest of the line (non-empty), consuming the
newline. -/
def parseTitle (cs : List Char) : Option (List Char × List Char) :=
  let t := cs.takeWhile (fun c => c ≠ '\n')
  if t = [] then none
  else some (t, (cs.drop t.length).drop 1)

/-- One `PERSON_LINE_RE` match attempt at the current position:
`(name, title, rest-after-match)`. -/
def matchPersonLine (cs : List Char) :
    Option (List Char × List Char × List Char) :=
  match matchCapWord cs with
  | none => none
  | some (w1, r0) =>
    (nameCands w1 r0).findSome? (fun nr =>
      match parseSepPlain nr.2 with
      | none => none
      | some afterSep =>
        match parseTitle afterSep with
        | none => none
        | some (t, rest) => some (nr.1, t, rest))

/-- One `BOLD_PERSON_RE` match attempt at the current position. -/
def matchBoldLine (cs : List Char) :
    Option (List Char × List Char × List Char) :=
  match cs with
  | '*' :: '*' :: cs2 =>
    match matchCapWord cs2 with
    | none => none
    | some (w1, r0) =>
      (nameCands w1 r0).findSome? (fun nr =>
        match nr.2 with
        | '*' :: '*' :: afterB =>
          match parseSepBold afterB with
          | none => none
          | some afterSep =>
            match parseTitle afterSep with
            | none => none
            | some (t, rest) => some (nr.1, t, rest)
        | _ => none)
  | _ => none

/-- `re.finditer`: leftmost, non-overlapping matches (fuelled by the
input length; every match consumes at least one char). -/
def finditerGo (matcher : List Char → Option (List Char × List Char × List Char)) :
    Nat → List Char → List (List Char × List Char)
  | 0, _ => []
  | _ + 1, [] => []
  | fuel + 1, c :: rest =>
    match matcher (c :: rest) with
    | some (nm, t, after) => (nm, t) :: finditerGo matcher fuel after
    | none => finditerGo matcher fuel rest

/-- `_extract_people_from_markdown`. -/
def extractPeopleFromMarkdown (markdown : String) : List (String × String) :=
  let cs := markdown.toList
  let ms := finditerGo matchBoldLine (cs.length + 1) cs ++
    finditerGo matchPersonLine (cs.length + 1) cs
  (ms.foldl (fun acc nt =>
    let name := pyStrip (String.mk nt.1)
    let title := pyStrip (String.mk nt.2)
    if ¬ acc.2.contains (pyLower name) ∧ (categorizeTitle title).isSome then
      (acc.1 ++ [(name, title)], acc.2 ++ [pyLower name])
    else acc) (([], []) : List (String × String) × List String)).1

/-! ### Evidence-source oracles

`search`, `search_structured` and `fetch_url_content` are outbound
calls; each is modelled as a function from the query string to the
parsed payload the calling code reads off the JSON response.  `none`
covers every branch the caller skips identically (no response, falsy
dict, missing key).  `search_structured` is one Python function used
with two result schemas; its two parsed shapes are separate fields. -/

/-- One entry of `data["results"]` as read by `_priority_3_linkedin`. -/
structure SearchResult where
  url : String
  name : String
  content : String

/-- The outbound evidence capabilities of one run. -/
structure Oracles where
  /-- `search_structured(..., PERSON_TITLE_SCHEMA, ...)`, read as
  `data.get("title", "")`. -/
  searchStructuredTitle : String → Option String
  /-- `search_structured(..., PEOPLE_SCHEMA, ...)`, read as the list of
  `(person.get("name", ""), person.get("title", ""))` pairs. -/
  searchStructuredPeople : String → Option (List (String × String))
  /-- `search(...)`, read as `data.get("results", [])`. -/
  searchDocs : String → Option (List SearchResult)
  /-- `fetch_url_content(...)`. -/
  fetchUrl : String → Option String

/-- Model of `urllib.parse.urlparse` restricted to what
`_priority_2_company_website` reads: the `(netloc, path)` split for
ordinary http(s)-style URLs (query/fragment stripped, params ignored). -/
def isSchemeChar (c : Char) : Bool :=
  c.isAlphanum || c = '+' || c = '-' || c = '.'

/-- `(netloc, path)` of a URL string. -/
def pyUrlsplit (u : String) : String × String :=
  let cs := u.toList
  let afterScheme :=
    let pre := cs.takeWhile isSchemeChar
    match cs.drop pre.length with
    | ':' :: rest => if pre ≠ [] ∧ (pre.headD ' ').isAlpha then rest else cs
    | _ => cs
  match afterScheme with
  | '/' :: '/' :: rest =>
    let netloc := rest.takeWhile (fun c => c ≠ '/' ∧ c ≠ '?' ∧ c ≠ '#')
    let path := (rest.drop netloc.length).takeWhile (fun c => c ≠ '?' ∧ c ≠ '#')
    (String.mk netloc, String.mk path)
  | _ => ("", String.mk (afterScheme.takeWhile (fun c => c ≠ '?' ∧ c ≠ '#')))

/-! ### The five priority steps -/

/-- `_priority_1_job_posting`. -/
def priority1 (o : Oracles) (contactName companyName : String)
    (pool : Pool) : Pool :=
  if contactName = "" then pool
  else
    let query := "\"" ++ contactName ++ "\" \"" ++ companyName ++
      "\" job title role"
    let title0 := (o.searchStructuredTitle query).getD ""
    let title := if title0 = "" then "Recruiter / Contact" else title0
    addPerson pool contactName title "Job Posting" companyName true ""

/-- `TEAM_PAGES`. -/
def TEAM_PAGES : List String :=
  ["/about", "/about-us", "/team", "/our-team", "/leadership", "/careers",
   "/contact"]

/-- Step 2a inner loop body: add one structured-search person from the
company website. -/
def websitePersonStep (companyName : String) (pl : Pool)
    (nt : String × String) : Pool :=
  let name := pyStrip nt.1
  let title := pyStrip nt.2
  if name ≠ "" ∧ title ≠ "" then
    addPerson pl name title "Company Website" companyName false ""
  else pl

/-- Step 2b inner loop body: fetch one team page and add everyone
extracted from its markdown. -/
def teamPageStep (o : Oracles) (companyName baseUrl : String) (pl : Pool)
    (path : String) : Pool :=
  match o.fetchUrl (baseUrl ++ path) with
  | some markdown =>
    if markdown ≠ "" ∧ 200 < markdown.length then
      (extractPeopleFromMarkdown markdown).foldl (fun pl2 nt =>
        addPerson pl2 nt.1 nt.2 "Company Website" companyName false "") pl
    else pl
  | none => pl

/-- Step 2a: structured search scoped to the domain. -/
def priority2Search (o : Oracles) (companyName query : String)
    (pool : Pool) : Pool :=
  match o.searchStructuredPeople query with
  | some people => people.foldl (websitePersonStep companyName) pool
  | none => pool

/-- `_priority_2_company_website`.  The `fetch_attempts` counter is
incremented unconditionally, so exactly the first three team pages are
fetched. -/
def priority2 (o : Oracles) (companyName companyDomain : String)
    (pool : Pool) : Pool :=
  let parse := pyUrlsplit companyDomain
  let domainHost := if parse.1 ≠ "" then parse.1 else stripSlash parse.2
  let query := "site:" ++ domainHost ++ " " ++ companyName ++
    " CEO owner president founder VP director " ++
    "hiring manager fleet manager operations team leadership"
  let pool1 := priority2Search o companyName query pool
  let websiteCount : Nat := (pool1.map (·.2)).countP
    (fun p => p.source = "Company Website")
  if websiteCount < 2 then
    let baseUrl0 := rstripSlash companyDomain
    let baseUrl := if pyStartsWith baseUrl0 "http" then baseUrl0
      else "https://" ++ baseUrl0
    (TEAM_PAGES.take 3).foldl (teamPageStep o companyName baseUrl) pool1
  else pool1

/-- `LINKEDIN_TITLE_QUERIES`. -/
def LINKEDIN_TITLE_QUERIES : List String :=
  ["CEO OR owner OR founder",
   "hiring manager OR recruiter OR HR director OR talent acquisition",
   "fleet manager OR operations OR safety"]

/-- Priority 3 inner loop body: validate and add one LinkedIn search
result. -/
def linkedinResultStep (companyName : String) (pl : Pool)
    (r : SearchResult) : Pool :=
  if ¬ strContains (pyLower r.url) "linkedin.com/in/" then pl
  else
    let parsed := parseLinkedinResult r.name
    let name := parsed.1
    let title := parsed.2
    if name = "" ∨ (pySplit name).length < 2 then pl
    else
      let fullText := r.name ++ " " ++ r.content
      if ¬ companyInResult companyName fullText name then pl
      else
        addPerson pl name (if title = "" then "Unknown Role" else title)
          "LinkedIn" companyName false r.url

/-- One title-group query of priority 3. -/
def priority3Query (o : Oracles) (companyName : String) (pl : Pool)
    (titleGroup : String) : Pool :=
  let query := "site:linkedin.com/in/ \"" ++ companyName ++ "\" " ++ titleGroup
  match o.searchDocs query with
  | none => pl
  | some results => results.foldl (linkedinResultStep companyName) pl

/-- `_priority_3_linkedin`. -/
def priority3 (o : Oracles) (companyName : String) (pool : Pool) : Pool :=
  LINKEDIN_TITLE_QUERIES.foldl (priority3Query o companyName) pool

/-- `CATEGORY_QUERIES` (dict, in insertion order). -/
def CATEGORY_QUERIES : List (String × String) :=
  [("Owners / Boss", "CEO OR owner OR founder OR president"),
   ("Hiring", "hiring manager OR recruiter OR HR director OR talent acquisition"),
   ("Operations & Fleet Management",
    "fleet manager OR operations manager OR safety director OR dispatch manager")]

/-- `_count_valid_in_category`. -/
def countValidInCategory (pool : Pool) (category : String) : Nat :=
  (pool.map (·.2)).countP (fun p => p.category = category ∧ p.linkedin ≠ "")

/-- Priority 4 inner loop body: add one structured web-search person. -/
def webSearchPersonStep (companyName : String) (pl : Pool)
    (nt : String × String) : Pool :=
  let name := pyStrip nt.1
  let title := pyStrip nt.2
  if name ≠ "" ∧ title ≠ "" then
    addPerson pl name title "Web Search" companyName false ""
  else pl

/-- One category query of priority 4 (skipped when the category already
has a record with a profile URL). -/
def priority4Query (o : Oracles) (companyName domainHint : String)
    (pl : Pool) (ct : String × String) : Pool :=
  if 1 ≤ countValidInCategory pl ct.1 then pl
  else
    let query := pyStrip ("\"" ++ companyName ++ "\" " ++ ct.2 ++ " " ++ domainHint)
    match o.searchStructuredPeople query with
    | some people => people.foldl (webSearchPersonStep companyName) pl
    | none => pl

/-- `_priority_4_web_search`. -/
def priority4 (o : Oracles) (companyName : String)
    (companyDomain : Option String) (pool : Pool) : Pool :=
  let domainHint := match companyDomain with
    | some d => if d ≠ "" then "site:" ++ d else ""
    | none => ""
  CATEGORY_QUERIES.foldl (priority4Query o companyName domainHint) pool

/-- Priority 5 inner loop body: validate one fallback candidate and
insert it (fresh keys only, confidence hard-coded `Low`). -/
def fallbackPersonStep (companyName : String) (pl : Pool)
    (nt : String × String) : Pool :=
  let name := pyStrip nt.1
  let title := pyStrip nt.2
  if ¬ isValidName name then pl
  else if companyName ≠ "" ∧ ¬ titleCompanyMatches title companyName then pl
  else
    let category := (categorizeTitle title).getD
      "Operations & Fleet Management"
    let key := pyLower name
    if (poolFind? pl key).isSome then pl
    else poolInsert pl key
      { name := name,
        title := if title = "" then "Employee" else title,
        category := category,
        source := "Web Search",
        mentioned_in_job_posting := false,
        linkedin := "",
        confidence := "Low" }

/-- The fallback structured query and candidate loop of priority 5. -/
def priority5Search (o : Oracles) (companyName query : String)
    (pool : Pool) : Pool :=
  match o.searchStructuredPeople query with
  | none => pool
  | some people => people.foldl (fallbackPersonStep companyName) pool

/-- `_priority_5_fallback`. -/
def priority5 (o : Oracles) (companyName : String) (pool : Pool) : Pool :=
  if 0 < countValid pool then pool
  else
    let query := "\"" ++ companyName ++
      "\" trucking office manager OR coordinator OR dispatch OR assistant OR employee"
    priority5Search o companyName query pool

/-! ### Final trim and the orchestrator -/

/-- `confidence_rank.get(p.confidence, 9)` in the final sort. -/
def sortConfRank (c : String) : Nat :=
  if c = "High" then 0 else if c = "Medium" then 1
  else if c = "Low" then 2 else 9

/-- `SOURCE_PRIORITY.get(p.source, 9)` in the final sort. -/
def sortSrcPrio (s : String) : Nat :=
  if s = "Job Posting" then 0
  else if s = "Company Website" then 1
  else if s = "LinkedIn" then 2
  else if s = "Web Search" then 3
  else 9

/-- The sort key of the final trim. -/
def sortKey (p : DecisionMaker) : Nat × Nat :=
  (sortConfRank p.confidence, sortSrcPrio p.source)

/-- Tuple comparison `sortKey p <= sortKey q` (Python compares the key
tuples lexicographically). -/
def contactLE (p q : DecisionMaker) : Bool :=
  decide ((sortKey p).1 < (sortKey q).1 ∨
    ((sortKey p).1 = (sortKey q).1 ∧ (sortKey p).2 ≤ (sortKey q).2))

/-- The final `sorted(...)[:MAX_CONTACTS_PER_COMPANY]`.  Python's
`sorted` is a stable merge sort on the key; `List.mergeSort` is the
same stable sort. -/
def trimContacts (people : List DecisionMaker) : List DecisionMaker :=
  (people.mergeSort contactLE).take MAX_CONTACTS_PER_COMPANY

/-- The pool after all five priority steps of `find_decision_makers`. -/
def finalPool (o : Oracles) (companyName : String)
    (companyDomain : Option String) (contactName : String) : Pool :=
  let pool : Pool := []
  let pool := priority1 o contactName companyName pool
  let pool := match companyDomain with
    | some d => if d ≠ "" then priority2 o companyName d pool else pool
    | none => pool
  let pool := priority3 o companyName pool
  let pool := priority4 o companyName companyDomain pool
  priority5 o companyName pool

/-- `find_decision_makers` (the `job_description` and `contact_email`
arguments are read by no step and omitted). -/
def findDecisionMakers (o : Oracles) (companyName : String)
    (companyDomain : Option String) (contactName : String) :
    List DecisionMaker :=
  trimContacts ((finalPool o companyName companyDomain contactName).map (·.2))

/-! ### Pool lemmas -/

theorem poolFind?_update_self (pool : Pool) (k : String) (v : DecisionMaker) :
    poolFind? (poolUpdate pool k v) k = (poolFind? pool k).map (fun _ => v) := by
  induction pool with
  | nil => rfl
  | cons kv t ih =>
    by_cases h : kv.1 = k <;> simp [poolUpdate, poolFind?, h, ih]

theorem poolFind?_update_ne (pool : Pool) (k k' : String) (v : DecisionMaker)
    (h : k' ≠ k) :
    poolFind? (poolUpdate pool k v) k' = poolFind? pool k' := by
  induction pool with
  | nil => rfl
  | cons kv t ih =>
    by_cases hk : kv.1 = k
    · rw [poolUpdate, if_pos hk, poolFind?, if_neg (fun hc : k = k' => h hc.symm),
        poolFind?, if_neg (fun hc : kv.1 = k' => h (by rw [← hc, hk])), ih]
    · rw [poolUpdate, if_neg hk, poolFind?, poolFind?]
      by_cases hk' : kv.1 = k'
      · rw [if_pos hk', if_pos hk']
      · rw [if_neg hk', if_neg hk', ih]

theorem poolUpdate_poolUpdate (pool : Pool) (k : String) (v w : DecisionMaker) :
    poolUpdate (poolUpdate pool k v) k w = poolUpdate pool k w := by
  induction pool with
  | nil => rfl
  | cons kv t ih =>
    by_cases h : kv.1 = k <;> simp [poolUpdate, h, ih]

theorem poolUpdate_append (p q : Pool) (k : String) (v : DecisionMaker) :
    poolUpdate (p ++ q) k v = poolUpdate p k v ++ poolUpdate q k v := by
  induction p with
  | nil => rfl
  | cons kv t ih =>
    by_cases h : kv.1 = k <;> simp [poolUpdate, h, ih]

theorem poolUpdate_of_find?_none (pool : Pool) (k : String) (v : DecisionMaker)
    (h : poolFind? pool k = none) : poolUpdate pool k v = pool := by
  induction pool with
  | nil => rfl
  | cons kv t ih =>
    by_cases hk : kv.1 = k
    · simp [poolFind?, hk] at h
    · simp [poolFind?, hk] at h
      simp [poolUpdate, hk, ih h]

theorem poolFind?_append (p q : Pool) (k : String) :
    poolFind? (p ++ q) k =
      ((poolFind? p k).rec (poolFind? q k) (fun x => some x) :
        Option DecisionMaker) := by
  induction p with
  | nil => rfl
  | cons kv t ih =>
    by_cases h : kv.1 = k <;> simp [poolFind?, h, ih]

theorem poolFind?_append_of_none (p q : Pool) (k : String)
    (h : poolFind? p k = none) : poolFind? (p ++ q) k = poolFind? q k := by
  rw [poolFind?_append, h]

theorem poolFind?_append_of_some (p q : Pool) (k : String) (x : DecisionMaker)
    (h : poolFind? p k = some x) : poolFind? (p ++ q) k = some x := by
  rw [poolFind?_append, h]

theorem poolFind?_some_mem (pool : Pool) (k : String) (x : DecisionMaker)
    (h : poolFind? pool k = some x) : (k, x) ∈ pool := by
  induction pool with
  | nil => simp [poolFind?] at h
  | cons kv t ih =>
    by_cases hk : kv.1 = k
    · simp only [poolFind?, hk, if_pos, Option.some.injEq] at h
      have : kv = (k, x) := by
        cases kv
        simp_all
      rw [← this]
      exact List.mem_cons_self _ _
    · simp only [poolFind?, hk, if_neg, if_false] at h
      exact List.mem_cons_of_mem _ (ih h)

theorem poolFind?_eq_none_iff (pool : Pool) (k : String) :
    poolFind? pool k = none ↔ ∀ kv ∈ pool, kv.1 ≠ k := by
  induction pool with
  | nil => simp [poolFind?]
  | cons kv t ih =>
    by_cases hk : kv.1 = k <;> simp [poolFind?, hk, ih]

theorem poolUpdate_length (pool : Pool) (k : String) (v : DecisionMaker) :
    (poolUpdate pool k v).length = pool.length := by
  induction pool with
  | nil => rfl
  | cons kv t ih =>
    by_cases h : kv.1 = k <;> simp [poolUpdate, h, ih]

theorem poolUpdate_keys (pool : Pool) (k : String) (v : DecisionMaker) :
    (poolUpdate pool k v).map (·.1) = pool.map (·.1) := by
  induction pool with
  | nil => rfl
  | cons kv t ih =>
    by_cases h : kv.1 = k <;> simp [poolUpdate, h, ih]

theorem mem_poolUpdate (pool : Pool) (k : String) (v : DecisionMaker)
    (kv' : String × DecisionMaker) (h : kv' ∈ poolUpdate pool k v) :
    kv' ∈ pool ∨ kv' = (k, v) := by
  induction pool with
  | nil => simp [poolUpdate] at h
  | cons kv t ih =>
    by_cases hk : kv.1 = k
    · rw [poolUpdate, if_pos hk] at h
      rcases List.mem_cons.1 h with h1 | h1
      · right; exact h1
      · rcases ih h1 with h' | h'
        · left; exact List.mem_cons_of_mem _ h'
        · right; exact h'
    · rw [poolUpdate, if_neg hk] at h
      rcases List.mem_cons.1 h with h1 | h1
      · left; simp [h1]
      · rcases ih h1 with h' | h'
        · left; exact List.mem_cons_of_mem _ h'
        · right; exact h'

/-! ### Field characterization of the merge arm -/

theorem mergeRecord_spec (e : DecisionMaker) (t s : String) (m : Bool)
    (l c : String) :
    mergeRecord e t s m l c =
      { name := e.name,
        title := if sourcePriority s < sourcePriority e.source then t else e.title,
        category := e.category,
        source := if sourcePriority s < sourcePriority e.source then s else e.source,
        mentioned_in_job_posting := m || e.mentioned_in_job_posting,
        linkedin := if l ≠ "" ∧ e.linkedin = "" then l else e.linkedin,
        confidence := if confRank e.confidence < confRank c then c
          else e.confidence } := by
  simp only [mergeRecord]
  split_ifs <;> simp_all

theorem mergeRecord_idem (e : DecisionMaker) (t s : String) (m : Bool)
    (l c : String) :
    mergeRecord (mergeRecord e t s m l c) t s m l c = mergeRecord e t s m l c := by
  simp only [mergeRecord_spec]
  simp only [DecisionMaker.mk.injEq]
  repeat' apply And.intro
  all_goals first
    | trivial
    | (cases m <;> rfl)
    | (split_ifs <;> simp_all)

theorem mergeRecord_fresh (n t cat s : String) (m : Bool) (l c : String) :
    mergeRecord ⟨n, t, cat, s, m, l, c⟩ t s m l c = ⟨n, t, cat, s, m, l, c⟩ := by
  rw [mergeRecord_spec]
  simp only [DecisionMaker.mk.injEq]
  repeat' apply And.intro
  all_goals first
    | trivial
    | (cases m <;> rfl)
    | (split_ifs <;> simp_all)

/-! ### The confidence invariant (C1) -/

/-- The spec invariant: `confidence == High` iff the record carries a
profile URL or was mentioned in the posting. -/
def ConfInv (p : DecisionMaker) : Prop :=
  p.confidence = "High" ↔ (p.linkedin ≠ "" ∨ p.mentioned_in_job_posting = true)

/-- The invariant, over every record of the pool. -/
def PoolConfInv (pool : Pool) : Prop :=
  ∀ kv ∈ pool, ConfInv kv.2

theorem computeConfidence_high_iff (s l : String) (m : Bool) (n : String) :
    computeConfidence s l m n = "High" ↔ (l ≠ "" ∨ m = true) := by
  unfold computeConfidence
  split_ifs <;> simp_all

theorem confRank_high (x : String) : x = "High" ↔ 2 ≤ confRank x := by
  unfold confRank
  split_ifs <;> simp_all

theorem mergeRecord_confInv (e : DecisionMaker) (t s : String) (m : Bool)
    (l n : String) (he : ConfInv e) :
    ConfInv (mergeRecord e t s m l (computeConfidence s l m n)) := by
  have hhigh := computeConfidence_high_iff s l m n
  rw [mergeRecord_spec]
  unfold ConfInv at he ⊢
  dsimp only
  by_cases hev : l ≠ "" ∨ m = true
  · have hc : computeConfidence s l m n = "High" := hhigh.2 hev
    have h2 : 2 ≤ confRank (computeConfidence s l m n) := (confRank_high _).1 hc
    constructor
    · intro _
      rcases hev with hl | hm
      · by_cases hel : e.linkedin = ""
        · left; simp [hl, hel]
        · left; simp [hel]
      · right; simp [hm]
    · intro _
      split_ifs with hconf
      · exact hc
      · have : 2 ≤ confRank e.confidence := by omega
        exact (confRank_high _).2 this
  · push_neg at hev
    obtain ⟨hl, hm⟩ := hev
    have hm' : m = false := by simpa using hm
    subst hm'
    have hc : computeConfidence s l false n ≠ "High" := fun h => by
      rcases hhigh.1 h with h' | h'
      · exact h' hl
      · simp at h'
    have hlfalse : ¬ (l ≠ "" ∧ e.linkedin = "") := fun h => h.1 hl
    rw [if_neg hlfalse, Bool.false_or]
    split_ifs with hconf
    · constructor
      · intro h; exact absurd h hc
      · intro h
        have h1 : 2 ≤ confRank e.confidence := (confRank_high _).1 (he.2 h)
        have h2 : ¬ 2 ≤ confRank (computeConfidence s l false n) :=
          fun h2 => hc ((confRank_high _).2 h2)
        omega
    · exact he

theorem addPerson_confInv (pool : Pool) (n t s c : String) (m : Bool)
    (l : String) (h : PoolConfInv pool) :
    PoolConfInv (addPerson pool n t s c m l) := by
  simp only [addPerson]
  split
  · exact h
  split
  · exact h
  split
  · exact h
  split
  next existing hfind =>
    intro kv hkv
    rcases mem_poolUpdate _ _ _ _ hkv with hold | hnew
    · exact h kv hold
    · rw [hnew]
      exact mergeRecord_confInv existing (pyStrip t) s m l (pyStrip n)
        (h _ (poolFind?_some_mem _ _ _ hfind))
  next hfind =>
    intro kv hkv
    rcases List.mem_append.1 hkv with hold | hnew
    · exact h kv hold
    · simp only [List.mem_singleton] at hnew
      rw [hnew]
      dsimp only [ConfInv]
      exact computeConfidence_high_iff s l m (pyStrip n)

theorem foldl_preserve {α β : Type} {P : β → Prop} {step : β → α → β}
    (hstep : ∀ b a, P b → P (step b a)) :
    ∀ (l : List α) (b : β), P b → P (l.foldl step b) := by
  intro l
  induction l with
  | nil => intro b hb; exact hb
  | cons a tl ih => intro b hb; exact ih _ (hstep b a hb)

theorem websitePersonStep_confInv (companyName : String) (pl : Pool)
    (nt : String × String) (h : PoolConfInv pl) :
    PoolConfInv (websitePersonStep companyName pl nt) := by
  simp only [websitePersonStep]
  split
  · exact addPerson_confInv _ _ _ _ _ _ _ h
  · exact h

theorem teamPageStep_confInv (o : Oracles) (companyName baseUrl : String)
    (pl : Pool) (path : String) (h : PoolConfInv pl) :
    PoolConfInv (teamPageStep o companyName baseUrl pl path) := by
  simp only [teamPageStep]
  split
  · split
    · exact foldl_preserve (fun b a hb => addPerson_confInv _ _ _ _ _ _ _ hb) _ _ h
    · exact h
  · exact h

theorem linkedinResultStep_confInv (companyName : String) (pl : Pool)
    (r : SearchResult) (h : PoolConfInv pl) :
    PoolConfInv (linkedinResultStep companyName pl r) := by
  simp only [linkedinResultStep]
  split
  · exact h
  split
  · exact h
  split
  · exact h
  · exact addPerson_confInv _ _ _ _ _ _ _ h

theorem webSearchPersonStep_confInv (companyName : String) (pl : Pool)
    (nt : String × String) (h : PoolConfInv pl) :
    PoolConfInv (webSearchPersonStep companyName pl nt) := by
  simp only [webSearchPersonStep]
  split
  · exact addPerson_confInv _ _ _ _ _ _ _ h
  · exact h

theorem fallbackPersonStep_confInv (companyName : String) (pl : Pool)
    (nt : String × String) (h : PoolConfInv pl) :
    PoolConfInv (fallbackPersonStep companyName pl nt) := by
  simp only [fallbackPersonStep]
  split
  · exact h
  split
  · exact h
  split
  · exact h
  · intro kv hkv
    rcases List.mem_append.1 hkv with hold | hnew
    · exact h kv hold
    · simp only [List.mem_singleton] at hnew
      rw [hnew]
      dsimp only [ConfInv]
      simp

theorem PoolConfInv_ite (C : Prop) [Decidable C] (X Y : Pool)
    (hX : PoolConfInv X) (hY : PoolConfInv Y) :
    PoolConfInv (if C then X else Y) := by
  split
  · exact hX
  · exact hY

theorem priority1_confInv (o : Oracles) (contactName companyName : String)
    (pool : Pool) (h : PoolConfInv pool) :
    PoolConfInv (priority1 o contactName companyName pool) := by
  simp only [priority1]
  exact PoolConfInv_ite _ _ _ h (addPerson_confInv _ _ _ _ _ _ _ h)

theorem priority2Search_confInv (o : Oracles) (companyName query : String)
    (pool : Pool) (h : PoolConfInv pool) :
    PoolConfInv (priority2Search o companyName query pool) := by
  simp only [priority2Search]
  split
  · exact foldl_preserve (fun b a hb => websitePersonStep_confInv _ _ _ hb) _ _ h
  · exact h

theorem priority2_confInv (o : Oracles) (companyName companyDomain : String)
    (pool : Pool) (h : PoolConfInv pool) :
    PoolConfInv (priority2 o companyName companyDomain pool) := by
  simp only [priority2]
  exact PoolConfInv_ite _ _ _
    (foldl_preserve (fun b a hb => teamPageStep_confInv _ _ _ b a hb) _ _
      (priority2Search_confInv _ _ _ _ h))
    (priority2Search_confInv _ _ _ _ h)

theorem priority3Query_confInv (o : Oracles) (companyName : String)
    (pl : Pool) (titleGroup : String) (h : PoolConfInv pl) :
    PoolConfInv (priority3Query o companyName pl titleGroup) := by
  simp only [priority3Query]
  split
  · exact h
  · exact foldl_preserve (fun b a hb => linkedinResultStep_confInv _ _ _ hb) _ _ h

theorem priority3_confInv (o : Oracles) (companyName : String)
    (pool : Pool) (h : PoolConfInv pool) :
    PoolConfInv (priority3 o companyName pool) := by
  simp only [priority3]
  exact foldl_preserve (fun b a hb => priority3Query_confInv _ _ _ _ hb) _ _ h

theorem priority4Query_confInv (o : Oracles) (companyName domainHint : String)
    (pl : Pool) (ct : String × String) (h : PoolConfInv pl) :
    PoolConfInv (priority4Query o companyName domainHint pl ct) := by
  simp only [priority4Query]
  split
  · exact h
  split
  · exact foldl_preserve (fun b a hb => webSearchPersonStep_confInv _ _ _ hb) _ _ h
  · exact h

theorem priority4_confInv (o : Oracles) (companyName : String)
    (companyDomain : Option String) (pool : Pool) (h : PoolConfInv pool) :
    PoolConfInv (priority4 o companyName companyDomain pool) := by
  simp only [priority4]
  exact foldl_preserve (fun b a hb => priority4Query_confInv _ _ _ _ _ hb) _ _ h

theorem priority5Search_confInv (o : Oracles) (companyName query : String)
    (pool : Pool) (h : PoolConfInv pool) :
    PoolConfInv (priority5Search o companyName query pool) := by
  simp only [priority5Search]
  split
  · exact h
  · exact foldl_preserve (fun b a hb => fallbackPersonStep_confInv _ _ _ hb) _ _ h

theorem priority5_confInv (o : Oracles) (companyName : String)
    (pool : Pool) (h : PoolConfInv pool) :
    PoolConfInv (priority5 o companyName pool) := by
  simp only [priority5]
  split
  · exact h
  · exact priority5Search_confInv _ _ _ _ h

theorem finalPool_confInv (o : Oracles) (companyName : String)
    (companyDomain : Option String) (contactName : String) :
    PoolConfInv (finalPool o companyName companyDomain contactName) := by
  simp only [finalPool]
  apply priority5_confInv
  apply priority4_confInv
  apply priority3_confInv
  have h1 : PoolConfInv (priority1 o contactName companyName []) :=
    priority1_confInv _ _ _ _ (fun kv hkv => by cases hkv)
  split
  · exact PoolConfInv_ite _ _ _ (priority2_confInv _ _ _ _ h1) h1
  · exact h1

theorem mem_trimContacts (l : List DecisionMaker) (p : DecisionMaker)
    (h : p ∈ trimContacts l) : p ∈ l := by
  simp only [trimContacts] at h
  exact List.mem_mergeSort.1 ((List.take_sublist _ _).subset h)

/-! ### Sample data for the witnesses -/

/-- A Medium-confidence record, as created by a web-search hit. -/
def sampleRecord : DecisionMaker :=
  { name := "John Doe", title := "Fleet Manager",
    category := "Operations & Fleet Management", source := "Web Search",
    mentioned_in_job_posting := false, linkedin := "", confidence := "Medium" }

/-- A one-record pool holding `sampleRecord`. -/
def samplePool : Pool := [("john doe", sampleRecord)]

/-- Oracles whose structured people search always returns one CEO. -/
def sampleOracles : Oracles :=
  { searchStructuredTitle := fun _ => none,
    searchStructuredPeople := fun _ => some [("John Doe", "CEO")],
    searchDocs := fun _ => none,
    fetchUrl := fun _ => none }

/-- The record `findDecisionMakers sampleOracles "Acme" none ""` yields. -/
def sampleWebRecord : DecisionMaker :=
  { name := "John Doe", title := "CEO", category := "Owners / Boss",
    source := "Web Search", mentioned_in_job_posting := false,
    linkedin := "", confidence := "Medium" }

/-! ### C1 -/

/-- C1: in every pool reachable by `_add_person` calls, and for every
record returned by `find_decision_makers`, `confidence = "High"` holds
iff the record's `linkedin` profile URL is set or its
`mentioned_in_job_posting` flag is true. -/
theorem confidence_high_iff_evidence :
    (∀ (pool : Pool) (n t s c : String) (m : Bool) (l : String),
      PoolConfInv pool → PoolConfInv (addPerson pool n t s c m l))
    ∧ (∀ (o : Oracles) (companyName : String) (companyDomain : Option String)
        (contactName : String),
        ∀ p ∈ findDecisionMakers o companyName companyDomain contactName,
          ConfInv p) := by
  constructor
  · exact fun pool n t s c m l h => addPerson_confInv pool n t s c m l h
  · intro o companyName companyDomain contactName p hp
    have hmem := mem_trimContacts _ _ hp
    simp only [List.mem_map] at hmem
    obtain ⟨kv, hkv, hkveq⟩ := hmem
    rw [← hkveq]
    exact finalPool_confInv o companyName companyDomain contactName kv hkv

/-- Witness for C1 at concrete inputs. -/
theorem confidence_high_iff_evidence_witness :
    PoolConfInv (addPerson samplePool "John Doe" "CEO" "LinkedIn" "" false
      "https://linkedin.com/in/jd")
    ∧ ConfInv sampleWebRecord := by
  constructor
  · apply confidence_high_iff_evidence.1
    intro kv hkv
    simp only [samplePool, List.mem_singleton] at hkv
    rw [hkv]
    dsimp only [ConfInv, sampleRecord]
    simp
  · apply confidence_high_iff_evidence.2 sampleOracles "Acme" none ""
    have hfp : (finalPool sampleOracles "Acme" none "").map (·.2) =
        [sampleWebRecord] := by decide
    rw [findDecisionMakers, hfp, trimContacts, List.mergeSort_singleton]
    simp [MAX_CONTACTS_PER_COMPANY]

/-! ### Merge shape lemmas (C5, C10) -/

theorem mergeRecord_conf_mono (e : DecisionMaker) (t s : String) (m : Bool)
    (l c : String) :
    confRank e.confidence ≤ confRank (mergeRecord e t s m l c).confidence := by
  rw [mergeRecord_spec]
  dsimp only
  split_ifs <;> omega

theorem mergeRecord_prio_mono (e : DecisionMaker) (t s : String) (m : Bool)
    (l c : String) :
    sourcePriority (mergeRecord e t s m l c).source ≤ sourcePriority e.source := by
  rw [mergeRecord_spec]
  dsimp only
  split_ifs <;> omega

theorem mergeRecord_category_name (e : DecisionMaker) (t s : String) (m : Bool)
    (l c : String) :
    (mergeRecord e t s m l c).category = e.category ∧
    (mergeRecord e t s m l c).name = e.name := by
  rw [mergeRecord_spec]
  exact ⟨rfl, rfl⟩

/-- What a call of `_add_person` can do to the record stored at any key:
leave it unchanged, or replace it by the merge of the old record with
the new evidence. -/
theorem addPerson_merge_shape (pool : Pool) (n t s c : String) (m : Bool)
    (l : String) (k : String) (old new : DecisionMaker)
    (hold : poolFind? pool k = some old)
    (hnew : poolFind? (addPerson pool n t s c m l) k = some new) :
    new = old ∨ new = mergeRecord old (pyStrip t) s m l
      (computeConfidence s l m (pyStrip n)) := by
  simp only [addPerson, poolInsert] at hnew
  split at hnew
  · left; rw [hold] at hnew; exact (Option.some_inj.1 hnew).symm
  split at hnew
  · left; rw [hold] at hnew; exact (Option.some_inj.1 hnew).symm
  split at hnew
  · left; rw [hold] at hnew; exact (Option.some_inj.1 hnew).symm
  split at hnew
  next existing hfind =>
    by_cases hk : k = pyLower (pyStrip n)
    · rw [hk] at hold hnew
      rw [poolFind?_update_self, hfind] at hnew
      simp only [Option.map_some'] at hnew
      have hex : existing = old := Option.some_inj.1 (hfind ▸ hold)
      right
      rw [← Option.some_inj.1 hnew, hex]
    · rw [poolFind?_update_ne _ _ _ _ hk] at hnew
      left; rw [hold] at hnew; exact (Option.some_inj.1 hnew).symm
  next hfind =>
    rw [poolFind?_append_of_some _ _ _ _ hold] at hnew
    left; exact (Option.some_inj.1 hnew).symm

/-! ### C5 -/

/-- C5: merging new evidence for an existing name never lowers the
stored confidence (High > Medium > Low) and never lowers the trust of
the stored source (`SOURCE_PRIORITY` never increases). -/
theorem merge_monotone :
    ∀ (pool : Pool) (n t s c : String) (m : Bool) (l : String) (k : String)
      (old new : DecisionMaker),
      poolFind? pool k = some old →
      poolFind? (addPerson pool n t s c m l) k = some new →
      confRank old.confidence ≤ confRank new.confidence ∧
      sourcePriority new.source ≤ sourcePriority old.source := by
  intro pool n t s c m l k old new hold hnew
  rcases addPerson_merge_shape pool n t s c m l k old new hold hnew with h | h
  · rw [h]; exact ⟨Nat.le_refl _, Nat.le_refl _⟩
  · rw [h]
    exact ⟨mergeRecord_conf_mono _ _ _ _ _ _, mergeRecord_prio_mono _ _ _ _ _ _⟩

/-- The record obtained by merging a LinkedIn hit into `sampleRecord`. -/
def sampleMerged : DecisionMaker :=
  { name := "John Doe", title := "CEO",
    category := "Operations & Fleet Management", source := "LinkedIn",
    mentioned_in_job_posting := false,
    linkedin := "https://linkedin.com/in/jd", confidence := "High" }

/-- Witness for C5 at a concrete merge. -/
theorem merge_monotone_witness :
    confRank sampleRecord.confidence ≤ confRank sampleMerged.confidence ∧
    sourcePriority sampleMerged.source ≤ sourcePriority sampleRecord.source :=
  merge_monotone samplePool "John Doe" "CEO" "LinkedIn" "" false
    "https://linkedin.com/in/jd" "john doe" sampleRecord sampleMerged
    (by decide) (by decide)

/-! ### C10 -/

/-- C10: a merge never rewrites `category` — the record keeps the
category computed from its first-inserted title even when a
higher-trust source later replaces `title` and `source` (shown
concretely in the second conjunct: the stored title becomes "CEO" from
the website while the category stays the one of "Fleet Manager"). -/
theorem merge_keeps_category :
    (∀ (pool : Pool) (n t s c : String) (m : Bool) (l : String) (k : String)
      (old new : DecisionMaker),
      poolFind? pool k = some old →
      poolFind? (addPerson pool n t s c m l) k = some new →
      new.category = old.category)
    ∧ poolFind? (addPerson samplePool "John Doe" "CEO" "Company Website" ""
        false "") "john doe" =
      some { name := "John Doe", title := "CEO",
             category := "Operations & Fleet Management",
             source := "Company Website", mentioned_in_job_posting := false,
             linkedin := "", confidence := "Medium" } := by
  constructor
  · intro pool n t s c m l k old new hold hnew
    rcases addPerson_merge_shape pool n t s c m l k old new hold hnew with h | h
    · rw [h]
    · rw [h]; exact (mergeRecord_category_name _ _ _ _ _ _).1
  · decide

/-- Witness for C10's universally quantified part at a concrete merge. -/
theorem merge_keeps_category_witness :
    ({ name := "John Doe", title := "CEO",
       category := "Operations & Fleet Management",
       source := "Company Website", mentioned_in_job_posting := false,
       linkedin := "", confidence := "Medium" } : DecisionMaker).category =
      sampleRecord.category :=
  merge_keeps_category.1 samplePool "John Doe" "CEO" "Company Website" ""
    false "" "john doe" sampleRecord _ (by decide) (by decide)

/-! ### C6 -/

/-- C6: calling `_add_person` twice with byte-identical arguments leaves
the pool exactly as calling it once. -/
theorem addperson_idempotent :
    ∀ (pool : Pool) (n t s c : String) (m : Bool) (l : String),
      addPerson (addPerson pool n t s c m l) n t s c m l =
        addPerson pool n t s c m l := by
  intro pool n t s c m l
  by_cases h1 : isValidName (pyStrip n) = true
  case neg =>
    have hre : ∀ pl : Pool, addPerson pl n t s c m l = pl := by
      intro pl
      simp only [addPerson]
      rw [if_pos h1]
    rw [hre, hre]
  by_cases h2 : c ≠ "" ∧ ¬ titleCompanyMatches (pyStrip t) c = true
  case pos =>
    have hre : ∀ pl : Pool, addPerson pl n t s c m l = pl := by
      intro pl
      simp only [addPerson]
      rw [if_neg (fun hc => hc h1), if_pos h2]
    rw [hre, hre]
  cases hcat : (if s = "Job Posting" ∧ m = true then
      some ((categorizeTitle (pyStrip t)).getD "Hiring")
    else categorizeTitle (pyStrip t)) with
  | none =>
    have hre : ∀ pl : Pool, addPerson pl n t s c m l = pl := by
      intro pl
      simp only [addPerson]
      rw [if_neg (fun hc => hc h1), if_neg h2]
      simp only [hcat]
    rw [hre, hre]
  | some cat =>
    have hstep : ∀ pl : Pool, addPerson pl n t s c m l =
        (match poolFind? pl (pyLower (pyStrip n)) with
          | some e => poolUpdate pl (pyLower (pyStrip n))
              (mergeRecord e (pyStrip t) s m l (computeConfidence s l m (pyStrip n)))
          | none => poolInsert pl (pyLower (pyStrip n))
              { name := pyStrip n, title := pyStrip t, category := cat,
                source := s, mentioned_in_job_posting := m,
                linkedin := l,
                confidence := computeConfidence s l m (pyStrip n) }) := by
      intro pl
      simp only [addPerson]
      rw [if_neg (fun hc => hc h1), if_neg h2]
      simp only [hcat]
    rw [hstep, hstep]
    cases hfind : poolFind? pool (pyLower (pyStrip n)) with
    | none =>
      have hfull : poolFind?
          (poolInsert pool (pyLower (pyStrip n))
            { name := pyStrip n, title := pyStrip t, category := cat,
              source := s, mentioned_in_job_posting := m, linkedin := l,
              confidence := computeConfidence s l m (pyStrip n) })
          (pyLower (pyStrip n)) = some
            { name := pyStrip n, title := pyStrip t, category := cat,
              source := s, mentioned_in_job_posting := m, linkedin := l,
              confidence := computeConfidence s l m (pyStrip n) } := by
        rw [poolInsert, poolFind?_append_of_none _ _ _ hfind]
        simp [poolFind?]
      dsimp only
      rw [hfull]
      dsimp only
      rw [mergeRecord_fresh, poolInsert, poolUpdate_append,
        poolUpdate_of_find?_none _ _ _ hfind]
      simp [poolUpdate]
    | some e =>
      dsimp only
      have hfull : poolFind?
          (poolUpdate pool (pyLower (pyStrip n))
            (mergeRecord e (pyStrip t) s m l (computeConfidence s l m (pyStrip n))))
          (pyLower (pyStrip n)) = some
            (mergeRecord e (pyStrip t) s m l (computeConfidence s l m (pyStrip n))) := by
        rw [poolFind?_update_self, hfind]
        rfl
      rw [hfull]
      dsimp only
      rw [mergeRecord_idem, poolUpdate_poolUpdate]

/-! ### C7 -/

/-- The keying discipline of the pool: pairwise-distinct keys, each the
lowercased name of its record. -/
def WellKeyed (pool : Pool) : Prop :=
  (pool.map (·.1)).Nodup ∧ ∀ kv ∈ pool, kv.1 = pyLower kv.2.name

theorem nodup_fst_eq (pool : Pool)
    (hnd : (pool.map (·.1)).Nodup) :
    ∀ kv1 ∈ pool, ∀ kv2 ∈ pool, kv1.1 = kv2.1 → kv1 = kv2 := by
  induction pool with
  | nil => intro kv1 h1; cases h1
  | cons kv t ih =>
    simp only [List.map_cons, List.nodup_cons] at hnd
    intro kv1 h1 kv2 h2 heq
    rcases List.mem_cons.1 h1 with h1' | h1' <;>
      rcases List.mem_cons.1 h2 with h2' | h2'
    · rw [h1', h2']
    · exfalso
      apply hnd.1
      rw [List.mem_map]
      exact ⟨kv2, h2', by rw [← heq, h1']⟩
    · exfalso
      apply hnd.1
      rw [List.mem_map]
      exact ⟨kv1, h1', by rw [heq, h2']⟩
    · exact ih hnd.2 kv1 h1' kv2 h2' heq

theorem addPerson_wellKeyed (pool : Pool) (n t s c : String) (m : Bool)
    (l : String) (h : WellKeyed pool) :
    WellKeyed (addPerson pool n t s c m l) := by
  obtain ⟨hnd, hkey⟩ := h
  simp only [addPerson, poolInsert]
  split
  · exact ⟨hnd, hkey⟩
  split
  · exact ⟨hnd, hkey⟩
  split
  · exact ⟨hnd, hkey⟩
  split
  next existing hfind =>
    constructor
    · rw [poolUpdate_keys]; exact hnd
    · intro kv hkv
      rcases mem_poolUpdate _ _ _ _ hkv with hold | hnew
      · exact hkey kv hold
      · rw [hnew]
        have h1 := hkey _ (poolFind?_some_mem _ _ _ hfind)
        dsimp only at h1 ⊢
        rw [(mergeRecord_category_name _ _ _ _ _ _).2, ← h1]
  next hfind =>
    constructor
    · rw [List.map_append]
      rw [List.nodup_append]
      refine ⟨hnd, List.nodup_singleton _, ?_⟩
      intro a ha hb
      simp only [List.map_cons, List.map_nil, List.mem_singleton] at hb
      rw [List.mem_map] at ha
      obtain ⟨kv, hkv, hkveq⟩ := ha
      exact ((poolFind?_eq_none_iff _ _).1 hfind kv hkv) (by rw [hkveq, hb])
    · intro kv hkv
      rcases List.mem_append.1 hkv with hold | hnew
      · exact hkey kv hold
      · simp only [List.mem_singleton] at hnew
        rw [hnew]

theorem addPerson_length_le (pool : Pool) (n t s c : String) (m : Bool)
    (l : String) :
    (addPerson pool n t s c m l).length ≤ pool.length + 1 := by
  simp only [addPerson, poolInsert]
  split
  · omega
  split
  · omega
  split
  · omega
  split
  · rw [poolUpdate_length]; omega
  · simp

theorem addPerson_length_of_found (pool : Pool) (n t s c : String) (m : Bool)
    (l : String) (hfound : (poolFind? pool (pyLower (pyStrip n))).isSome) :
    (addPerson pool n t s c m l).length = pool.length := by
  simp only [addPerson, poolInsert]
  split
  · rfl
  split
  · rfl
  split
  · rfl
  split
  · rw [poolUpdate_length]
  next hfind => rw [hfind] at hfound; cases hfound

theorem addPerson_grow_cases (pool : Pool) (n t s c : String) (m : Bool)
    (l : String) :
    (addPerson pool n t s c m l).length = pool.length ∨
    ((addPerson pool n t s c m l).length = pool.length + 1 ∧
      (poolFind? (addPerson pool n t s c m l) (pyLower (pyStrip n))).isSome) := by
  by_cases hfound : (poolFind? pool (pyLower (pyStrip n))).isSome
  · left; exact addPerson_length_of_found pool n t s c m l hfound
  · simp only [addPerson, poolInsert]
    split
    · left; rfl
    split
    · left; rfl
    split
    · left; rfl
    split
    next hfind => rw [hfind] at hfound; cases hfound rfl
    next hfind =>
      right
      constructor
      · simp
      · rw [poolFind?_append_of_none _ _ _ hfind]
        simp [poolFind?]

/-- C7: the pool is keyed by the lowercased, trimmed name:
`_add_person` preserves the keying discipline, no reachable pool holds
two records with the same lowercased name, and two calls whose names
agree up to letter case insert at most one record between them. -/
theorem pool_key_unique :
    (∀ (pool : Pool) (n t s c : String) (m : Bool) (l : String),
      WellKeyed pool → WellKeyed (addPerson pool n t s c m l))
    ∧ (∀ pool : Pool, WellKeyed pool →
        ∀ kv1 ∈ pool, ∀ kv2 ∈ pool,
          pyLower kv1.2.name = pyLower kv2.2.name → kv1 = kv2)
    ∧ (∀ (pool : Pool) (n1 n2 t1 t2 s1 s2 c1 c2 : String) (m1 m2 : Bool)
        (l1 l2 : String),
        pyLower (pyStrip n1) = pyLower (pyStrip n2) →
        (addPerson (addPerson pool n1 t1 s1 c1 m1 l1) n2 t2 s2 c2 m2 l2).length ≤
          pool.length + 1) := by
  refine ⟨fun pool n t s c m l h => addPerson_wellKeyed pool n t s c m l h,
    ?_, ?_⟩
  · intro pool h kv1 h1 kv2 h2 heq
    apply nodup_fst_eq pool h.1 kv1 h1 kv2 h2
    rw [h.2 kv1 h1, h.2 kv2 h2, heq]
  · intro pool n1 n2 t1 t2 s1 s2 c1 c2 m1 m2 l1 l2 hkey
    rcases addPerson_grow_cases pool n1 t1 s1 c1 m1 l1 with hlen | ⟨hlen, hfound⟩
    · calc (addPerson (addPerson pool n1 t1 s1 c1 m1 l1) n2 t2 s2 c2 m2 l2).length
          ≤ (addPerson pool n1 t1 s1 c1 m1 l1).length + 1 :=
            addPerson_length_le _ _ _ _ _ _ _
        _ = pool.length + 1 := by rw [hlen]
    · rw [addPerson_length_of_found _ _ _ _ _ _ _ (by rw [← hkey]; exact hfound),
        hlen]

/-- Witness for C7 at concrete inputs: a case-different name merges
instead of inserting. -/
theorem pool_key_unique_witness :
    WellKeyed (addPerson samplePool "JOHN DOE" "Owner" "Web Search" "" false "")
    ∧ (addPerson (addPerson [] "John Doe" "Owner" "Web Search" "" false "")
        "JOHN DOE" "Fleet Manager" "Web Search" "" false "").length ≤
      List.length ([] : Pool) + 1 :=
  ⟨pool_key_unique.1 samplePool "JOHN DOE" "Owner" "Web Search" "" false ""
      ⟨by decide, by decide⟩,
    pool_key_unique.2.2 [] "John Doe" "JOHN DOE" "Owner" "Fleet Manager"
      "Web Search" "Web Search" "" "" false false "" "" (by decide)⟩

/-! ### C9 -/

/-- C9: with no posting contact name and every evidence query yielding
no data, `find_decision_makers` still returns (the embedding is a total
function — "no data" is an ordinary value, not an exception; only the
query client's rate-limit path, modelled in `postWithRetry`, produces a
distinguished error) and its result is the empty list. -/
theorem no_evidence_returns_empty :
    ∀ (o : Oracles) (companyName : String) (companyDomain : Option String),
      (∀ q, o.searchStructuredTitle q = none) →
      (∀ q, o.searchStructuredPeople q = none) →
      (∀ q, o.searchDocs q = none) →
      (∀ q, o.fetchUrl q = none) →
      findDecisionMakers o companyName companyDomain "" = [] := by
  intro o companyName companyDomain h1 h2 h3 h4
  have hp2 : ∀ (d : String) (pool : Pool),
      priority2 o companyName d pool = pool := by
    intro d pool
    simp [priority2, priority2Search, teamPageStep, h2, h4, TEAM_PAGES]
  have hp3 : ∀ pool : Pool, priority3 o companyName pool = pool := by
    intro pool
    simp [priority3, priority3Query, h3, LINKEDIN_TITLE_QUERIES]
  have hp4 : ∀ pool : Pool, priority4 o companyName companyDomain pool = pool := by
    intro pool
    simp [priority4, priority4Query, h2, CATEGORY_QUERIES]
  have hp5 : ∀ pool : Pool, priority5 o companyName pool = pool := by
    intro pool
    simp [priority5, priority5Search, h2]
  have hp1 : priority1 o "" companyName [] = [] := by
    simp [priority1]
  have hfp : finalPool o companyName companyDomain "" = [] := by
    cases companyDomain with
    | none =>
      simp only [finalPool]
      rw [hp1, hp3, hp4, hp5]
    | some d =>
      simp only [finalPool]
      rw [hp1]
      by_cases hd : d ≠ ""
      · rw [if_pos hd, hp2, hp3, hp4, hp5]
      · rw [if_neg hd, hp3, hp4, hp5]
  rw [findDecisionMakers, hfp]
  simp [trimContacts]

/-- Witness for C9 with the constantly-empty oracles. -/
theorem no_evidence_returns_empty_witness :
    findDecisionMakers
      { searchStructuredTitle := fun _ => none,
        searchStructuredPeople := fun _ => none,
        searchDocs := fun _ => none,
        fetchUrl := fun _ => none }
      "Next Steps Logistics LLC" (some "https://nextstepslogistics.com") "" = [] :=
  no_evidence_returns_empty _ "Next Steps Logistics LLC"
    (some "https://nextstepslogistics.com")
    (fun _ => rfl) (fun _ => rfl) (fun _ => rfl) (fun _ => rfl)

/-! ### C2 -/

theorem contactLE_trans :
    ∀ a b c : DecisionMaker, contactLE a b → contactLE b c → contactLE a c := by
  intro a b c
  simp only [contactLE, decide_eq_true_eq]
  omega

theorem contactLE_total :
    ∀ a b : DecisionMaker, contactLE a b || contactLE b a := by
  intro a b
  simp only [contactLE, Bool.or_eq_true, decide_eq_true_eq]
  omega

/-- The behaviour of the final trim on an arbitrary pool-value list:
cap of 5, sortedness by the `(confidence rank, source priority)` key,
agreement with the strict total order `(key, insertion index)` (Python's
`sorted` is stable, `List.mergeSort` is the same stable sort), and the
kept prefix preceding every dropped element under that order. -/
theorem trim_spec (l : List DecisionMaker) :
    (trimContacts l).length ≤ MAX_CONTACTS_PER_COMPANY
    ∧ (trimContacts l).Pairwise (fun p q => contactLE p q = true)
    ∧ trimContacts l =
        ((l.enum.mergeSort (List.enumLE contactLE)).take
          MAX_CONTACTS_PER_COMPANY).map (·.2)
    ∧ ∀ x ∈ (l.enum.mergeSort (List.enumLE contactLE)).take
        MAX_CONTACTS_PER_COMPANY,
      ∀ y ∈ (l.enum.mergeSort (List.enumLE contactLE)).drop
        MAX_CONTACTS_PER_COMPANY,
        List.enumLE contactLE x y = true := by
  refine ⟨?_, ?_, ?_, ?_⟩
  · rw [trimContacts, List.length_take]
    exact Nat.min_le_left _ _
  · exact (List.sorted_mergeSort contactLE_trans contactLE_total l).sublist
      (List.take_sublist _ _)
  · rw [trimContacts, ← List.mergeSort_enum, List.map_take]
  · intro x hx y hy
    have hs := List.sorted_mergeSort
      (List.enumLE_trans contactLE_trans)
      (List.enumLE_total contactLE_total)
      l.enum
    rw [← List.take_append_drop MAX_CONTACTS_PER_COMPANY
      (l.enum.mergeSort (List.enumLE contactLE))] at hs
    exact (List.pairwise_append.1 hs).2.2 x hx y hy

/-- C2: `find_decision_makers` returns at most 5 records, sorted by
confidence descending then source trust descending; the result equals
the 5-prefix of the stable sort of the pool values (ties broken by
first-insertion order, expressed by sorting the index-tagged values by
the strict total order `enumLE contactLE`), and every kept element
precedes every dropped element under that order. -/
theorem result_cap_and_order :
    ∀ (o : Oracles) (companyName : String) (companyDomain : Option String)
      (contactName : String),
      (findDecisionMakers o companyName companyDomain contactName).length ≤
        MAX_CONTACTS_PER_COMPANY
      ∧ (findDecisionMakers o companyName companyDomain
          contactName).Pairwise (fun p q => contactLE p q = true)
      ∧ findDecisionMakers o companyName companyDomain contactName =
          ((((finalPool o companyName companyDomain contactName).map
            (·.2)).enum.mergeSort (List.enumLE contactLE)).take
              MAX_CONTACTS_PER_COMPANY).map (·.2)
      ∧ ∀ x ∈ (((finalPool o companyName companyDomain contactName).map
          (·.2)).enum.mergeSort (List.enumLE contactLE)).take
            MAX_CONTACTS_PER_COMPANY,
        ∀ y ∈ (((finalPool o companyName companyDomain contactName).map
          (·.2)).enum.mergeSort (List.enumLE contactLE)).drop
            MAX_CONTACTS_PER_COMPANY,
          List.enumLE contactLE x y = true := by
  intro o companyName companyDomain contactName
  simp only [findDecisionMakers]
  exact trim_spec _

/-- Oracles whose structured people search returns six candidates. -/
def sampleSixOracles : Oracles :=
  { searchStructuredTitle := fun _ => none,
    searchStructuredPeople := fun _ => some
      [("Ann Ba", "CEO"), ("Bob Cd", "Owner"), ("Cara De", "Founder"),
       ("Dan Ef", "President"), ("Eve Fg", "Manager"), ("Fred Gh", "Dispatch")],
    searchDocs := fun _ => none,
    fetchUrl := fun _ => none }

/-- The six pool values the oracles above produce (insertion order). -/
def sampleSix : List DecisionMaker :=
  [{ name := "Ann Ba", title := "CEO", category := "Owners / Boss",
     source := "Web Search", mentioned_in_job_posting := false,
     linkedin := "", confidence := "Medium" },
   { name := "Bob Cd", title := "Owner", category := "Owners / Boss",
     source := "Web Search", mentioned_in_job_posting := false,
     linkedin := "", confidence := "Medium" },
   { name := "Cara De", title := "Founder", category := "Owners / Boss",
     source := "Web Search", mentioned_in_job_posting := false,
     linkedin := "", confidence := "Medium" },
   { name := "Dan Ef", title := "President", category := "Owners / Boss",
     source := "Web Search", mentioned_in_job_posting := false,
     linkedin := "", confidence := "Medium" },
   { name := "Eve Fg", title := "Manager",
     category := "Operations & Fleet Management", source := "Web Search",
     mentioned_in_job_posting := false, linkedin := "", confidence := "Medium" },
   { name := "Fred Gh", title := "Dispatch",
     category := "Operations & Fleet Management", source := "Web Search",
     mentioned_in_job_posting := false, linkedin := "", confidence := "Medium" }]

/-- Witness for C2 on a six-record pool: the first kept element precedes
the one dropped element under the stable-sort order. -/
theorem result_cap_and_order_witness :
    List.enumLE contactLE (0, sampleSix.headD sampleRecord)
      (5, (sampleSix.drop 5).headD sampleRecord) = true := by
  have h := (result_cap_and_order sampleSixOracles "" none "").2.2.2
  have hl : (finalPool sampleSixOracles "" none "").map (·.2) = sampleSix := by
    decide
  have hs : (sampleSix.enum).mergeSort (List.enumLE contactLE) =
      sampleSix.enum :=
    List.mergeSort_of_sorted (by decide)
  rw [hl, hs] at h
  exact h _ (by decide) _ (by decide)

/-! ### C8 -/

/-- C8: the company-title cross-check rejects `"CEO at Next Trucking"`
and accepts `"CEO at Next Steps Logistics"` against target
`"Next Steps Logistics LLC"`; in general, a title with no `at <Company>`
clause always passes, and a title with such a clause passes iff the
target company has no meaningful words or at least 75% of them
(`3·|target| ≤ 4·|common|` over the de-duplicated word sets) appear in
the title's company. -/
theorem title_company_guard :
    titleCompanyMatches "CEO at Next Trucking" "Next Steps Logistics LLC" = false
    ∧ titleCompanyMatches "CEO at Next Steps Logistics"
        "Next Steps Logistics LLC" = true
    ∧ (∀ title companyName : String, findAtClause title = none →
        titleCompanyMatches title companyName = true)
    ∧ (∀ (title companyName grp : String),
        findAtClause title = some grp →
        targetWords companyName ≠ [] →
        (titleCompanyMatches title companyName = true ↔
          3 * (targetWords companyName).length ≤
            4 * (guardCommonWords companyName grp).length)) := by
  refine ⟨by decide, by decide, ?_, ?_⟩
  · intro title companyName h
    rw [titleCompanyMatches, h]
  · intro title companyName grp h hne
    rw [titleCompanyMatches, h]
    dsimp only
    rw [if_neg hne]
    simp

/-- Witness for C8's conditional parts at concrete inputs. -/
theorem title_company_guard_witness :
    titleCompanyMatches "Senior Dispatcher" "Acme Trucking" = true
    ∧ (titleCompanyMatches "CEO at Acme Trucking" "Acme Trucking" = true ↔
        3 * (targetWords "Acme Trucking").length ≤
          4 * (guardCommonWords "Acme Trucking" "Acme Trucking").length) :=
  ⟨title_company_guard.2.2.1 "Senior Dispatcher" "Acme Trucking" (by decide),
   title_company_guard.2.2.2 "CEO at Acme Trucking" "Acme Trucking"
     "Acme Trucking" (by decide) (by decide)⟩

/-! ### C3 -/

theorem postRetryGo_waits_le (script : Nat → PostOutcome) :
    ∀ (remaining attempt c429 : Nat) (waits : List Nat) (lastExc : Bool),
      (∀ w ∈ waits, w ≤ 60) →
      ∀ w ∈ (postRetryGo script remaining attempt c429 waits lastExc).2.1,
        w ≤ 60 := by
  intro remaining
  induction remaining with
  | zero =>
    intro attempt c429 waits lastExc hw
    simpa [postRetryGo] using hw
  | succ rem ih =>
    intro attempt c429 waits lastExc hw
    simp only [postRetryGo]
    split
    · split
      · exact ih _ _ _ _ hw
      · simpa using hw
    · split
      · split
        · simpa using hw
        · apply ih
          intro w hw'
          rcases List.mem_append.1 hw' with hmem | hmem
          · exact hw w hmem
          · simp only [List.mem_singleton] at hmem
            rw [hmem]
            exact Nat.min_le_right _ _
      · split
        · exact ih _ _ _ _ hw
        · simpa using hw

/-- C3 counterexample: the claim says a 429 retry does not count against
the maximum-attempt budget used for transport failures.  In the code the
429 branch `continue`s the `for attempt in range(MAX_RETRIES_PER_REQUEST
+ 1)` loop, so each 429 consumes one of the 4 shared iterations: four
consecutive 429s (counter starting at 0) exhaust the loop and raise the
generic HTTP error after only 4 waits — the counter never reaches the
fail-fast threshold of 5 and `RateLimitExhausted` is never raised. -/
theorem rate_limit_budget_counterexample :
    postWithRetry (fun _ => PostOutcome.status 429 none) 0 =
      (Except.error RetryError.httpError, [10, 10, 10, 10], 4) := by
  rfl

/-- C3 amended: on a 429 the client sleeps the source-provided (or
default 10s) cooldown capped at 60s and retries while incrementing the
process-wide consecutive-overload counter, failing fast with
`RateLimitExhausted` as soon as the incremented counter reaches 5 — but
the retry consumes an attempt of the same
`MAX_RETRIES_PER_REQUEST + 1` budget that transport failures use, so at
most 4 consecutive 429 retries happen inside one call (then a generic
HTTP error is raised). -/
theorem rate_limit_429_amended :
    (∀ (script : Nat → PostOutcome) (c0 : Nat),
      ∀ w ∈ (postWithRetry script c0).2.1, w ≤ 60)
    ∧ (∀ (script : Nat → PostOutcome) (c0 : Nat) (ra : Option Nat),
        script 0 = PostOutcome.status 429 ra →
        MAX_CONSECUTIVE_429 ≤ c0 + 1 →
        postWithRetry script c0 =
          (Except.error RetryError.rateLimitExhausted, [], c0 + 1))
    ∧ postWithRetry (fun _ => PostOutcome.status 429 none) 0 =
        (Except.error RetryError.httpError, [10, 10, 10, 10], 4) := by
  refine ⟨?_, ?_, by rfl⟩
  · intro script c0
    exact postRetryGo_waits_le script _ _ _ _ _ (by intro w hw; cases hw)
  · intro script c0 ra h0 hth
    rw [postWithRetry, postRetryGo, h0]
    simp [hth]

/-- Witness for C3's amended claim at concrete inputs. -/
theorem rate_limit_429_amended_witness :
    (10 ∈ (postWithRetry (fun _ => PostOutcome.status 429 none) 0).2.1 →
      (10 : Nat) ≤ 60)
    ∧ postWithRetry (fun _ => PostOutcome.status 429 (some 120)) 4 =
        (Except.error RetryError.rateLimitExhausted, [], 5) :=
  ⟨fun h => rate_limit_429_amended.1 (fun _ => PostOutcome.status 429 none)
      0 10 h,
    rate_limit_429_amended.2.1 (fun _ => PostOutcome.status 429 (some 120)) 4
      (some 120) rfl (by decide)⟩

/-! ### C4 -/

/-- Oracles whose structured people search returns one candidate with an
unclassifiable title. -/
def fallbackProbeOracles : Oracles :=
  { searchStructuredTitle := fun _ => none,
    searchStructuredPeople := fun _ => some [("John Doe", "Astronaut")],
    searchDocs := fun _ => none,
    fetchUrl := fun _ => none }

/-- C4 counterexample: the fallback does NOT run its candidates through
the same categorization step as `_add_person`.  For the candidate
`("John Doe", "Astronaut")` — a title no category keyword matches —
step 4 of `_add_person` drops the candidate, but
`_priority_5_fallback` keeps it, defaulting the category to
`"Operations & Fleet Management"`. -/
theorem fallback_bypasses_category_drop :
    (priority5 fallbackProbeOracles "Acme" []).map
        (fun kv => (kv.2.name, kv.2.title, kv.2.category, kv.2.confidence)) =
      [("John Doe", "Astronaut", "Operations & Fleet Management", "Low")]
    ∧ addPerson [] "John Doe" "Astronaut" "Web Search" "Acme" false "" = []
    ∧ categorizeTitle "Astronaut" = none := by
  refine ⟨by decide, by decide, by decide⟩

/-- Every record the fallback loop appends is Low-confidence, sourced
from `Web Search`, valid-named and evidence-free. -/
theorem fallbackFold_extends (companyName : String) :
    ∀ (people : List (String × String)) (pool : Pool),
      ∃ rest, people.foldl (fallbackPersonStep companyName) pool =
          pool ++ rest ∧
        ∀ kv ∈ rest, kv.2.confidence = "Low" ∧ kv.2.source = "Web Search" ∧
          isValidName kv.2.name = true ∧ kv.2.linkedin = "" ∧
          kv.2.mentioned_in_job_posting = false := by
  intro people
  induction people with
  | nil =>
    intro pool
    exact ⟨[], by simp, by intro kv hkv; cases hkv⟩
  | cons nt tl ih =>
    intro pool
    have hstep : fallbackPersonStep companyName pool nt = pool ∨
        ∃ e, fallbackPersonStep companyName pool nt = pool ++ [e] ∧
          e.2.confidence = "Low" ∧ e.2.source = "Web Search" ∧
          isValidName e.2.name = true ∧ e.2.linkedin = "" ∧
          e.2.mentioned_in_job_posting = false := by
      simp only [fallbackPersonStep, poolInsert]
      split
      · left; rfl
      split
      · left; rfl
      split
      · left; rfl
      next hvalid _ _ =>
        right
        refine ⟨_, rfl, rfl, rfl, ?_, rfl, rfl⟩
        simpa using hvalid
    rcases hstep with h | ⟨e, he, hP⟩
    · rw [List.foldl_cons, h]
      exact ih pool
    · rw [List.foldl_cons, he]
      obtain ⟨rest, hr, hrP⟩ := ih (pool ++ [e])
      refine ⟨e :: rest, ?_, ?_⟩
      · rw [hr, List.append_assoc]
        rfl
      · intro kv hkv
        rcases List.mem_cons.1 hkv with hkv' | hkv'
        · rw [hkv']; exact hP
        · exact hrP kv hkv'

/-- C4 amended: the fallback query is issued only when no record has
High confidence; its candidates pass the same name validation and
company-title cross-check as `_add_person` and are inserted with
confidence forced to `Low` from the `Web Search` source — but an
unclassifiable title is defaulted to category
`"Operations & Fleet Management"` instead of being dropped (step 4
differs), an empty title is stored as `"Employee"`, and a candidate
whose key already exists is skipped instead of merged (which coincides
with the step-6 merge, since fallback evidence can never upgrade an
existing record). -/
theorem fallback_gate_and_low (o : Oracles) (companyName : String)
    (pool : Pool) :
    (0 < countValid pool → priority5 o companyName pool = pool)
    ∧ ∃ rest, priority5 o companyName pool = pool ++ rest ∧
        ∀ kv ∈ rest, kv.2.confidence = "Low" ∧ kv.2.source = "Web Search" ∧
          isValidName kv.2.name = true ∧ kv.2.linkedin = "" ∧
          kv.2.mentioned_in_job_posting = false := by
  constructor
  · intro h
    rw [priority5, if_pos h]
  · rw [priority5]
    split
    · exact ⟨[], by simp, by intro kv hkv; cases hkv⟩
    · rw [priority5Search]
      split
      · exact ⟨[], by simp, by intro kv hkv; cases hkv⟩
      · exact fallbackFold_extends companyName _ pool

/-- A pool already holding one High-confidence record. -/
def sampleHighPool : Pool :=
  [("jane roe",
    { name := "Jane Roe", title := "CEO", category := "Owners / Boss",
      source := "LinkedIn", mentioned_in_job_posting := false,
      linkedin := "https://linkedin.com/in/janeroe", confidence := "High" })]

/-- Witness for C4's amended claim: with a High-confidence record
present, the fallback leaves the pool untouched. -/
theorem fallback_gate_and_low_witness :
    priority5 fallbackProbeOracles "Acme" sampleHighPool = sampleHighPool :=
  (fallback_gate_and_low fallbackProbeOracles "Acme" sampleHighPool).1
    (by decide)

end DriverJobPost
